import Mathlib

/-!
Verification of the hook layer of an MQTT server (Go).

The development shallowly embeds the three hooks of the repository:

* `DeduplicationHook` (dedup of repeated device reports inside a time
  window, keyed by a UUID extracted from the JSON payload);
* `IPInjectorHook` (wrapping the payload of configured topics in an
  envelope carrying the sender's remote address);
* `ConnectHook` (publishing connect/disconnect notifications).

Go's `map[string]int64` is embedded as an association list with a
well-formedness predicate (`CacheWf`, keys pairwise distinct — a Go map
guarantee).  `int64` timestamps become `Int`.  The result of
`json.Unmarshal` into `map[string]interface and so on` is embedded as
`ParseResult`; JSON numbers decode to Go `float64`, embedded as `Rat`.
`time.Now().Unix()` is passed in as an explicit `now : Int` parameter.
-/

set_option maxHeartbeats 1000000

/-- A JSON value as produced by Go's `json.Unmarshal` into `interface`:
strings, numbers (`float64`, embedded as `Rat`), booleans, null, arrays
and objects. -/
inductive JsonVal where
  | str (s : String)
  | num (q : Rat)
  | bool (b : Bool)
  | null
  | arr (xs : List JsonVal)
  | obj (fields : List (String × JsonVal))

/-- Outcome of `json.Unmarshal(pk.Payload, &msgData)` for
`msgData : map[string]interface`: either a parse error or a key/value
document. -/
inductive ParseResult where
  | fail
  | ok (fields : List (String × JsonVal))

/-- The Go error values the hooks can return:
`packets.ErrRejectPacket` (dedup) and a `json.Marshal` error
(IP injector). -/
inductive GoError where
  | rejectPacket
  | marshalError
deriving DecidableEq, Repr

/-- A publish packet as seen by the dedup hook: topic name plus the
parse outcome of its payload bytes. -/
structure DedupPacket where
  topicName : String
  payload : ParseResult

/-- Lookup in a Go map embedded as an association list. -/
def cacheLookup (c : List (String × Int)) (k : String) : Option Int :=
  match c.find? (fun p => p.1 = k) with
  | some p => some p.2
  | none => none

/-- Assignment `m[k] = v` in a Go map embedded as an association list:
replace the entry if the key is present, otherwise append it. -/
def cacheInsert (c : List (String × Int)) (k : String) (v : Int) : List (String × Int) :=
  if c.any (fun p => p.1 = k) then
    c.map (fun p => if p.1 = k then (k, v) else p)
  else
    c ++ [(k, v)]

/-- Well-formedness of the embedded map: keys are pairwise distinct
(a Go map holds at most one entry per key). -/
def CacheWf (c : List (String × Int)) : Prop :=
  (c.map Prod.fst).Nodup

instance (c : List (String × Int)) : Decidable (CacheWf c) := by
  unfold CacheWf; infer_instance

/-- State of `DeduplicationHook`: the message cache plus the
configuration fields, mirroring the Go struct field by field
(`cleanInterval` is kept in seconds). -/
structure DeduplicationHook where
  msgCache : List (String × Int)
  targetTopic : String
  timestampField : String
  uuidField : String
  countField : String
  timeWindow : Int
  cleanInterval : Int

/-- Embeds `NewDeduplicationHook`: the default configuration. -/
def newDeduplicationHook : DeduplicationHook :=
  { msgCache := []
  , targetTopic := "device/contact"
  , timestampField := "timestamp"
  , uuidField := "uuid"
  , countField := "count"
  , timeWindow := 20
  , cleanInterval := 300 }

/-- Embeds `extractString`: fetch a field and require it to be a JSON string;
`none` when the field is absent or has another type. -/
def extractString (data : List (String × JsonVal)) (field : String) : Option String :=
  match (data.find? (fun p => p.1 = field)).map Prod.snd with
  | some (JsonVal.str s) => some s
  | _ => none

/-- Go's conversion `int64(v)` for `v : float64`: truncation toward
zero. -/
def f64ToInt64 (q : Rat) : Int :=
  q.num.tdiv (Int.ofNat q.den)

/-- Embeds `extractInt`: fetch a field and require it to be a number,
distinguishing `0` from "absent".  JSON numbers decode to `float64`,
so only the number case of the Go type switch is reachable from
`json.Unmarshal` data; the conversion truncates toward zero. -/
def extractInt (data : List (String × JsonVal)) (field : String) : Option Int :=
  match (data.find? (fun p => p.1 = field)).map Prod.snd with
  | some (JsonVal.num q) => some (f64ToInt64 q)
  | _ => none

/-- Embeds `DeduplicationHook.OnPublish`.  Returns the (unmodified) packet, an
optional error (`rejectPacket` for a suppressed duplicate) and the
updated hook state.  `now` is the value of `time.Now().Unix()` during
the call. -/
def DeduplicationHook.onPublish (h : DeduplicationHook) (pk : DedupPacket) (now : Int) :
    DedupPacket × Option GoError × DeduplicationHook :=
  if pk.topicName ≠ h.targetTopic then
    (pk, none, h)
  else
    match pk.payload with
    | ParseResult.fail => (pk, none, h)
    | ParseResult.ok msgData =>
      match extractString msgData h.uuidField with
      | none => (pk, none, h)
      | some uuid =>
        if extractInt msgData h.countField = some 0 then
          -- client-restart signal: pass through and reset the entry
          (pk, none, { h with msgCache := cacheInsert h.msgCache uuid now })
        else
          match cacheLookup h.msgCache uuid with
          | some lastTs =>
            let timeDiff := now - lastTs
            if 0 ≤ timeDiff ∧ timeDiff ≤ h.timeWindow then
              -- duplicate: reject, cache deliberately not refreshed
              (pk, some GoError.rejectPacket, h)
            else
              (pk, none, { h with msgCache := cacheInsert h.msgCache uuid now })
          | none => (pk, none, { h with msgCache := cacheInsert h.msgCache uuid now })

/-- Embeds `DeduplicationHook.cleanExpiredCache`: delete every entry whose
stored timestamp is strictly older than one hour before `now`. -/
def DeduplicationHook.cleanExpiredCache (h : DeduplicationHook) (now : Int) : DeduplicationHook :=
  let expireThreshold := now - 3600
  { h with msgCache := h.msgCache.filter (fun p => !(p.2 < expireThreshold)) }

/-- Embeds `DeduplicationHook.SetConfig`: replace target topic, uuid and
timestamp field names, and the time window (the count field name has no
parameter and is untouched; nor is the cache). -/
def DeduplicationHook.setConfig (h : DeduplicationHook)
    (topic uuidField timestampField : String) (timeWindow : Int) : DeduplicationHook :=
  { h with
    targetTopic := topic
    uuidField := uuidField
    timestampField := timestampField
    timeWindow := timeWindow }

/-- One dedup-cache operation: a publish event or a background sweep. -/
inductive DedupOp where
  | publish (pk : DedupPacket)
  | sweep

/-- Apply one operation at server time `now`. -/
def applyDedupOp (h : DeduplicationHook) (op : DedupOp) (now : Int) : DeduplicationHook :=
  match op with
  | DedupOp.publish pk => (h.onPublish pk now).2.2
  | DedupOp.sweep => h.cleanExpiredCache now

/-- Run a timestamped sequence of operations left to right. -/
def runDedupOps (h : DeduplicationHook) (ops : List (DedupOp × Int)) : DeduplicationHook :=
  ops.foldl (fun st op => applyDedupOp st op.1 op.2) h

/-! ### IP injector hook

Go's `json.Marshal` of the wrapper struct embeds the original payload
through `json.RawMessage`, whose encoder re-scans the raw bytes: it
errors when they are not a single valid JSON value, and otherwise copies
them with whitespace between tokens removed and the HTML characters
escaped (`compact` with `escapeHTML` set, the `json.Marshal` default).
The scanner below embeds that behaviour over `Char` lists. -/

/-- The double-quote character. -/
def quoteChar : Char := Char.ofNat 34

/-- The backslash character. -/
def backslashChar : Char := Char.ofNat 92

/-- The opening curly brace character. -/
def lbraceChar : Char := Char.ofNat 123

/-- The closing curly brace character. -/
def rbraceChar : Char := Char.ofNat 125

/-- JSON insignificant whitespace: space, tab, newline, carriage
return. -/
def isJsonWs (c : Char) : Bool :=
  c = ' ' || c = Char.ofNat 9 || c = Char.ofNat 10 || c = Char.ofNat 13

/-- Drop leading JSON whitespace. -/
def skipWs : List Char → List Char
  | [] => []
  | c :: rest => if isJsonWs c then skipWs rest else c :: rest

/-- Hexadecimal digit test (for `\u` escapes). -/
def isHexDigitChar (c : Char) : Bool :=
  c.isDigit || ('a' ≤ c && c ≤ 'f') || ('A' ≤ c && c ≤ 'F')

/-- Lower-case hexadecimal digit for a value below 16. -/
def hexDigitChar (n : Nat) : Char :=
  if n < 10 then Char.ofNat (48 + n) else Char.ofNat (87 + n)

/-- Go's HTML-escaping of `<`, `>`, `&` and of the line separators
U+2028/U+2029 performed by `compact` when `escapeHTML` is set. -/
def escapeHtmlChar (c : Char) : List Char :=
  if c = '<' then backslashChar :: ['u', '0', '0', '3', 'c']
  else if c = '>' then backslashChar :: ['u', '0', '0', '3', 'e']
  else if c = '&' then backslashChar :: ['u', '0', '0', '2', '6']
  else if c = Char.ofNat 8232 then backslashChar :: ['u', '2', '0', '2', '8']
  else if c = Char.ofNat 8233 then backslashChar :: ['u', '2', '0', '2', '9']
  else [c]

/-- Scan a JSON string body (after the opening quote) with fuel.
Returns the compacted output (closing quote included) and the remaining
input; `none` on malformed input. -/
def scanStringBody : Nat → List Char → Option (List Char × List Char)
  | 0, _ => none
  | _, [] => none
  | fuel + 1, c :: rest =>
    if c = quoteChar then some ([quoteChar], rest)
    else if c = backslashChar then
      match rest with
      | [] => none
      | e :: rest2 =>
        if e = quoteChar || e = backslashChar || e = '/' || e = 'b' || e = 'f'
            || e = 'n' || e = 'r' || e = 't' then
          match scanStringBody fuel rest2 with
          | some (out, r) => some (backslashChar :: e :: out, r)
          | none => none
        else if e = 'u' then
          match rest2 with
          | h1 :: h2 :: h3 :: h4 :: rest3 =>
            if isHexDigitChar h1 && isHexDigitChar h2 && isHexDigitChar h3
                && isHexDigitChar h4 then
              match scanStringBody fuel rest3 with
              | some (out, r) =>
                some (backslashChar :: 'u' :: h1 :: h2 :: h3 :: h4 :: out, r)
              | none => none
            else none
          | _ => none
        else none
    else if c.toNat < 32 then none
    else
      match scanStringBody fuel rest with
      | some (out, r) => some (escapeHtmlChar c ++ out, r)
      | none => none

/-- Longest digit prefix of the input, with the rest. -/
def scanDigits : List Char → List Char × List Char
  | [] => ([], [])
  | c :: rest =>
    if c.isDigit then
      let (d, r) := scanDigits rest
      (c :: d, r)
    else ([], c :: rest)

/-- Optional fraction part `.digits` of a JSON number. -/
def scanFracPart : List Char → Option (List Char × List Char)
  | c :: rest =>
    if c = '.' then
      let (d, r) := scanDigits rest
      if d.isEmpty then none else some ('.' :: d, r)
    else some ([], c :: rest)
  | [] => some ([], [])

/-- Optional exponent part `[eE][+-]?digits` of a JSON number. -/
def scanExpPart : List Char → Option (List Char × List Char)
  | c :: rest =>
    if c = 'e' || c = 'E' then
      match rest with
      | s :: rest2 =>
        if s = '+' || s = '-' then
          let (d, r) := scanDigits rest2
          if d.isEmpty then none else some (c :: s :: d, r)
        else
          let (d, r) := scanDigits rest
          if d.isEmpty then none else some (c :: d, r)
      | [] => none
    else some ([], c :: rest)
  | [] => some ([], [])

/-- Scan the body of a JSON number after an optional minus sign:
integer part (`0` or a nonzero-led digit run), then optional fraction
and exponent. -/
def scanNumberBody (cs : List Char) : Option (List Char × List Char) :=
  match cs with
  | [] => none
  | c :: rest =>
    if c = '0' then
      match scanFracPart rest with
      | some (fr, r1) =>
        match scanExpPart r1 with
        | some (ex, r2) => some ('0' :: fr ++ ex, r2)
        | none => none
      | none => none
    else if c.isDigit then
      let (d, r0) := scanDigits rest
      match scanFracPart r0 with
      | some (fr, r1) =>
        match scanExpPart r1 with
        | some (ex, r2) => some (c :: d ++ fr ++ ex, r2)
        | none => none
      | none => none
    else none

/-- Match a literal keyword (the tail of `true`, `false`, `null`). -/
def scanKeyword : List Char → List Char → Option (List Char)
  | [], r => some r
  | l :: ls, c :: r => if c = l then scanKeyword ls r else none
  | _ :: _, [] => none

mutual

/-- Scan one JSON value, producing its compacted, HTML-escaped output
and the remaining input. -/
def scanValue : Nat → List Char → Option (List Char × List Char)
  | 0, _ => none
  | fuel + 1, cs =>
    match cs with
    | [] => none
    | c :: rest =>
      if c = quoteChar then
        match scanStringBody (fuel + 1) rest with
        | some (out, r) => some (quoteChar :: out, r)
        | none => none
      else if c = lbraceChar then
        match skipWs rest with
        | [] => none
        | d :: r =>
          if d = rbraceChar then some ([lbraceChar, rbraceChar], r)
          else
            match scanMembers fuel (d :: r) with
            | some (mout, r2) => some (lbraceChar :: mout ++ [rbraceChar], r2)
            | none => none
      else if c = '[' then
        match skipWs rest with
        | [] => none
        | d :: r =>
          if d = ']' then some (['[', ']'], r)
          else
            match scanElements fuel (d :: r) with
            | some (eout, r2) => some ('[' :: eout ++ [']'], r2)
            | none => none
      else if c = 't' then
        match scanKeyword ['r', 'u', 'e'] rest with
        | some r => some (['t', 'r', 'u', 'e'], r)
        | none => none
      else if c = 'f' then
        match scanKeyword ['a', 'l', 's', 'e'] rest with
        | some r => some (['f', 'a', 'l', 's', 'e'], r)
        | none => none
      else if c = 'n' then
        match scanKeyword ['u', 'l', 'l'] rest with
        | some r => some (['n', 'u', 'l', 'l'], r)
        | none => none
      else if c = '-' then
        match scanNumberBody rest with
        | some (out, r) => some ('-' :: out, r)
        | none => none
      else if c.isDigit then scanNumberBody (c :: rest)
      else none

/-- Scan the members of a JSON object (input starts at a key, output
stops after consuming the closing brace, which is not emitted). -/
def scanMembers : Nat → List Char → Option (List Char × List Char)
  | 0, _ => none
  | fuel + 1, cs =>
    match cs with
    | [] => none
    | c :: rest =>
      if c = quoteChar then
        match scanStringBody (fuel + 1) rest with
        | some (kout, r1) =>
          match skipWs r1 with
          | ':' :: r3 =>
            match scanValue fuel (skipWs r3) with
            | some (vout, r4) =>
              match skipWs r4 with
              | ',' :: r6 =>
                match scanMembers fuel (skipWs r6) with
                | some (mout, r7) =>
                  some (quoteChar :: kout ++ ':' :: vout ++ ',' :: mout, r7)
                | none => none
              | c2 :: r6 =>
                if c2 = rbraceChar then
                  some (quoteChar :: kout ++ ':' :: vout, r6)
                else none
              | [] => none
            | none => none
          | _ => none
        | none => none
      else none

/-- Scan the elements of a JSON array (input starts at a value, output
stops after consuming the closing bracket, which is not emitted). -/
def scanElements : Nat → List Char → Option (List Char × List Char)
  | 0, _ => none
  | fuel + 1, cs =>
    match scanValue fuel cs with
    | some (vout, r) =>
      match skipWs r with
      | ',' :: r2 =>
        match scanElements fuel (skipWs r2) with
        | some (eout, r3) => some (vout ++ ',' :: eout, r3)
        | none => none
      | ']' :: r2 => some (vout, r2)
      | _ => none
    | none => none

end

/-- Go's `compact` of a `json.RawMessage` with HTML escaping: validate
that the bytes form exactly one JSON value (surrounded by optional
whitespace) and return it with inter-token whitespace removed; `none`
when invalid, in which case `json.Marshal` of the wrapper fails. -/
def jsonCompact (s : String) : Option String :=
  match scanValue (2 * s.length + 4) (skipWs s.toList) with
  | some (out, rest) =>
    if (skipWs rest).isEmpty then some (String.mk out) else none
  | none => none

/-- Go's JSON encoding of a string value (with HTML escaping, the
`json.Marshal` default): quotes around the escaped characters. -/
def goEncodeChar (c : Char) : List Char :=
  if c = quoteChar then [backslashChar, quoteChar]
  else if c = backslashChar then [backslashChar, backslashChar]
  else if c = Char.ofNat 10 then [backslashChar, 'n']
  else if c = Char.ofNat 13 then [backslashChar, 'r']
  else if c = Char.ofNat 9 then [backslashChar, 't']
  else if c = '<' || c = '>' || c = '&' || c = Char.ofNat 8232 || c = Char.ofNat 8233 then
    escapeHtmlChar c
  else if c.toNat < 32 then
    [backslashChar, 'u', '0', '0', hexDigitChar (c.toNat / 16), hexDigitChar (c.toNat % 16)]
  else [c]

/-- Go's JSON encoding of a whole string value. -/
def goEncodeString (s : String) : String :=
  String.mk (quoteChar :: (s.toList.map goEncodeChar).flatten ++ [quoteChar])

/-- Result of `json.Marshal` on the wrapper struct of the IP injector:
`\x7b"meta":\x7b"ip":<addr>\x7d,"data":<payload>\x7d` with the payload
embedded through `json.RawMessage` (validated and compacted), or an
error when the payload is not valid JSON. -/
def ipInjectorMarshal (remote : String) (payload : String) : Option String :=
  match jsonCompact payload with
  | some d =>
    some ("\x7b\"meta\":\x7b\"ip\":" ++ goEncodeString remote ++ "\x7d,\"data\":" ++ d ++ "\x7d")
  | none => none

/-- A publish packet as seen by the IP injector: topic name and raw
payload bytes (embedded as a string). -/
structure InjPacket where
  topicName : String
  payload : String
deriving DecidableEq

/-- The sending client as seen by the hooks: `cl.Net.Remote`. -/
structure Client where
  remote : String
deriving DecidableEq

/-- State of `IPInjectorHook`: the list of topics to enrich. -/
structure IPInjectorHook where
  targetTopic : List String

/-- Embeds `NewIPInjectorHook`: the default enrichment topics. -/
def newIPInjectorHook : IPInjectorHook :=
  { targetTopic := ["device/contact", "device/report/restart"] }

/-- Embeds `IPInjectorHook.isTargetTopic`: linear membership test. -/
def IPInjectorHook.isTargetTopic (h : IPInjectorHook) (topic : String) : Bool :=
  h.targetTopic.any (fun t => t = topic)

/-- Embeds `IPInjectorHook.OnPublish`: wrap the payload of configured
topics in the metadata envelope; on a `json.Marshal` failure return the
original packet together with the error. -/
def IPInjectorHook.onPublish (h : IPInjectorHook) (cl : Client) (pk : InjPacket) :
    InjPacket × Option GoError :=
  if !(h.isTargetTopic pk.topicName) then (pk, none)
  else
    match ipInjectorMarshal cl.remote pk.payload with
    | some payloadBytes => ({ pk with payload := payloadBytes }, none)
    | none => (pk, some GoError.marshalError)

/-! ### Connect hook -/

/-- The client as seen by the connect hook: `cl.ID` and
`cl.Net.Remote`. -/
structure ConnClient where
  id : String
  remote : String

/-- A call to `server.Publish(topic, payload, retain, qos)`. -/
structure PublishCall where
  topic : String
  payload : String
  retain : Bool
  qos : Nat
deriving DecidableEq

/-- State of `ConnectHook`. -/
structure ConnectHook where
  connectTopic : String
  disConnectTopic : String
  qos : Nat

/-- Embeds `NewConnectHook`. -/
def newConnectHook : ConnectHook :=
  { connectTopic := "sys/connect", disConnectTopic := "sys/disconnect", qos := 1 }

/-- Embeds `ConnectHook.OnConnect`: build the uuid/ip document and hand
it to an asynchronous `server.Publish` (retain `false`, qos `0`); the
hook returns `nil` to the broker.  The outcome of the fire-and-forget
publish is a parameter the result provably never depends on. -/
def ConnectHook.onConnect (h : ConnectHook) (cl : ConnClient)
    (pubOutcome : Option GoError) : PublishCall × Option GoError :=
  ({ topic := h.connectTopic
   , payload := "\x7b\"uuid\":\"" ++ cl.id ++ "\",\"ip\":\"" ++ cl.remote ++ "\"\x7d"
   , retain := false
   , qos := 0 }, none)

/-- Embeds `ConnectHook.OnDisconnect`: build the uuid document and hand
it to an asynchronous `server.Publish`; the Go method returns nothing,
and ignores its `err`/`expire` arguments and the publish outcome. -/
def ConnectHook.onDisconnect (h : ConnectHook) (cl : ConnClient)
    (err : Option GoError) (expire : Bool) (pubOutcome : Option GoError) : PublishCall :=
  { topic := h.disConnectTopic
  , payload := "\x7b\"uuid\":\"" ++ cl.id ++ "\"\x7d"
  , retain := false
  , qos := 0 }

/-! ### Association-list cache lemmas -/

theorem cacheLookup_nil (k : String) : cacheLookup [] k = none := rfl

theorem cacheLookup_cons (p : String × Int) (rest : List (String × Int)) (k : String) :
    cacheLookup (p :: rest) k = if p.1 = k then some p.2 else cacheLookup rest k := by
  unfold cacheLookup
  by_cases hp : p.1 = k
  · rw [List.find?_cons_of_pos _ (by simpa using hp), if_pos hp]
  · rw [List.find?_cons_of_neg _ (by simpa using hp), if_neg hp]

theorem cacheLookup_eq_none_of_not_mem (c : List (String × Int)) (k : String)
    (h : k ∉ c.map Prod.fst) : cacheLookup c k = none := by
  induction c with
  | nil => rfl
  | cons p rest ih =>
    simp only [List.map_cons, List.mem_cons, not_or] at h
    rw [cacheLookup_cons, if_neg (fun e => h.1 e.symm)]
    exact ih h.2

theorem cacheLookup_append_single (c : List (String × Int)) (k k' : String) (v : Int)
    (hall : ∀ p ∈ c, p.1 ≠ k) :
    cacheLookup (c ++ [(k, v)]) k' = if k' = k then some v else cacheLookup c k' := by
  induction c with
  | nil =>
    rw [List.nil_append, cacheLookup_cons, cacheLookup_nil]
    by_cases hk : k' = k
    · rw [if_pos hk.symm, if_pos hk]
    · rw [if_neg (fun e => hk e.symm), if_neg hk]
  | cons p rest ih =>
    have hp : p.1 ≠ k := hall p (List.mem_cons_self p rest)
    have hall' : ∀ q ∈ rest, q.1 ≠ k := fun q hq => hall q (List.mem_cons_of_mem p hq)
    rw [List.cons_append, cacheLookup_cons, cacheLookup_cons]
    by_cases hpk : p.1 = k'
    · have hk : k' ≠ k := fun e => hp (hpk.trans e)
      rw [if_pos hpk, if_pos hpk, if_neg hk]
    · rw [if_neg hpk, if_neg hpk, ih hall']

theorem cacheLookup_map_update_self (c : List (String × Int)) (k : String) (v : Int)
    (hex : c.any (fun p => p.1 = k) = true) :
    cacheLookup (c.map (fun p => if p.1 = k then (k, v) else p)) k = some v := by
  induction c with
  | nil => simp at hex
  | cons p rest ih =>
    rw [List.map_cons]
    by_cases hp : p.1 = k
    · rw [if_pos hp, cacheLookup_cons, if_pos rfl]
    · have hex' : rest.any (fun p => p.1 = k) = true := by
        simpa [hp] using hex
      rw [if_neg hp, cacheLookup_cons, if_neg hp]
      exact ih hex'

theorem cacheLookup_map_update_ne (c : List (String × Int)) (k k' : String) (v : Int)
    (hne : k' ≠ k) :
    cacheLookup (c.map (fun p => if p.1 = k then (k, v) else p)) k' = cacheLookup c k' := by
  induction c with
  | nil => rfl
  | cons p rest ih =>
    rw [List.map_cons]
    by_cases hp : p.1 = k
    · have h1 : ¬ ((k, v).1 = k') := fun e => hne e.symm
      have h2 : ¬ (p.1 = k') := fun e => hne (e.symm.trans hp)
      rw [if_pos hp, cacheLookup_cons, cacheLookup_cons, if_neg h1, if_neg h2]
      exact ih
    · rw [if_neg hp, cacheLookup_cons, cacheLookup_cons]
      by_cases hpk : p.1 = k'
      · rw [if_pos hpk, if_pos hpk]
      · rw [if_neg hpk, if_neg hpk, ih]

/-- Characterization of a Go map assignment through lookups. -/
theorem cacheLookup_cacheInsert (c : List (String × Int)) (k k' : String) (v : Int) :
    cacheLookup (cacheInsert c k v) k' = if k' = k then some v else cacheLookup c k' := by
  unfold cacheInsert
  by_cases hex : c.any (fun p => p.1 = k) = true
  · rw [if_pos hex]
    by_cases hk : k' = k
    · subst hk
      rw [cacheLookup_map_update_self c k' v hex, if_pos rfl]
    · rw [cacheLookup_map_update_ne c k k' v hk, if_neg hk]
  · rw [if_neg hex]
    have hall : ∀ p ∈ c, p.1 ≠ k := by
      intro p hp e
      exact hex (List.any_eq_true.mpr ⟨p, hp, by simpa using e⟩)
    exact cacheLookup_append_single c k k' v hall

theorem CacheWf.cacheInsert_preserves (c : List (String × Int)) (k : String) (v : Int)
    (hwf : CacheWf c) : CacheWf (cacheInsert c k v) := by
  unfold cacheInsert
  by_cases hex : c.any (fun p => p.1 = k) = true
  · rw [if_pos hex]
    unfold CacheWf
    have he : (c.map (fun p => if p.1 = k then (k, v) else p)).map Prod.fst = c.map Prod.fst := by
      rw [List.map_map]
      apply List.map_congr_left
      intro p _
      by_cases hp : p.1 = k
      · simp [hp]
      · simp [hp]
    rw [he]
    exact hwf
  · rw [if_neg hex]
    unfold CacheWf
    rw [List.map_append]
    have hk : k ∉ c.map Prod.fst := by
      intro hmem
      rcases List.mem_map.mp hmem with ⟨p, hp, he⟩
      exact hex (List.any_eq_true.mpr ⟨p, hp, by simpa using he⟩)
    refine List.Nodup.append hwf (List.nodup_singleton _) ?_
    intro a ha hb
    simp only [List.map_cons, List.map_nil, List.mem_singleton] at hb
    exact hk (hb ▸ ha)

theorem CacheWf.filter_preserves (c : List (String × Int)) (P : String × Int → Bool)
    (hwf : CacheWf c) : CacheWf (c.filter P) :=
  List.Nodup.sublist ((c.filter_sublist).map Prod.fst) hwf

/-- Lookup in a filtered well-formed map: the entry survives exactly
when it was present and satisfies the predicate. -/
theorem cacheLookup_filter (c : List (String × Int)) (P : String × Int → Bool)
    (k : String) (v : Int) (hwf : CacheWf c) :
    cacheLookup (c.filter P) k = some v ↔ cacheLookup c k = some v ∧ P (k, v) = true := by
  induction c with
  | nil => simp [cacheLookup]
  | cons p rest ih =>
    have hwf' : CacheWf rest := (List.nodup_cons.mp hwf).2
    have hknotin : p.1 ∉ rest.map Prod.fst := (List.nodup_cons.mp hwf).1
    by_cases hP : P p = true
    · rw [List.filter_cons_of_pos hP, cacheLookup_cons, cacheLookup_cons]
      by_cases hpk : p.1 = k
      · have hpfull : p = (k, p.2) := by
          cases p
          simp_all
      
        rw [if_pos hpk, if_pos hpk]
        constructor
        · intro h
          injection h with h
          subst h
          exact ⟨rfl, by rw [← hpfull]; exact hP⟩
        · exact fun h => h.1
      · rw [if_neg hpk, if_neg hpk]
        exact ih hwf'
    · rw [List.filter_cons_of_neg (by simpa using hP), cacheLookup_cons]
      by_cases hpk : p.1 = k
      · have hnone : cacheLookup (rest.filter P) k = none := by
          apply cacheLookup_eq_none_of_not_mem
          intro hmem
          apply hknotin
          rw [hpk]
          rcases List.mem_map.mp hmem with ⟨q, hq, he⟩
          exact List.mem_map.mpr ⟨q, (rest.filter_sublist).mem hq, he⟩
        rw [hnone, if_pos hpk]
        constructor
        · intro h
          exact absurd h (by simp)
        · rintro ⟨h1, h2⟩
          injection h1 with h1
          have hpfull : p = (k, v) := by
            cases p
            simp_all
          rw [hpfull] at hP
          exact absurd h2 hP
      · rw [if_neg hpk]
        exact ih hwf'

/-! ### Dedup state-transition lemmas -/

/-- Every branch of `OnPublish` either leaves the hook state unchanged
or assigns the current server time to the extracted uuid. -/
theorem onPublish_state_cases (h : DeduplicationHook) (pk : DedupPacket) (now : Int) :
    (h.onPublish pk now).2.2 = h ∨
    ∃ u, (h.onPublish pk now).2.2 = { h with msgCache := cacheInsert h.msgCache u now } := by
  unfold DeduplicationHook.onPublish
  split
  · left; rfl
  · split
    · left; rfl
    · split
      · left; rfl
      · split
        · right; exact ⟨_, rfl⟩
        · split
          · dsimp only
            split
            · left; rfl
            · right; exact ⟨_, rfl⟩
          · right; exact ⟨_, rfl⟩

theorem onPublish_wf (h : DeduplicationHook) (pk : DedupPacket) (now : Int)
    (hwf : CacheWf h.msgCache) : CacheWf (h.onPublish pk now).2.2.msgCache := by
  rcases onPublish_state_cases h pk now with he | ⟨u, he⟩
  · rw [he]; exact hwf
  · rw [he]; exact CacheWf.cacheInsert_preserves _ u now hwf

theorem applyDedupOp_wf (h : DeduplicationHook) (op : DedupOp) (t : Int)
    (hwf : CacheWf h.msgCache) : CacheWf (applyDedupOp h op t).msgCache := by
  cases op with
  | publish pk => exact onPublish_wf h pk t hwf
  | sweep => exact CacheWf.filter_preserves _ _ hwf

/-- After one operation at server time `t`, a stored timestamp is
either an old one or equal to `t`. -/
theorem applyDedupOp_lookup_cases (h : DeduplicationHook) (op : DedupOp) (t : Int)
    (k : String) (v' : Int) (hwf : CacheWf h.msgCache)
    (hl : cacheLookup (applyDedupOp h op t).msgCache k = some v') :
    cacheLookup h.msgCache k = some v' ∨ v' = t := by
  cases op with
  | publish pk =>
    simp only [applyDedupOp] at hl
    rcases onPublish_state_cases h pk t with he | ⟨u, he⟩
    · rw [he] at hl; exact Or.inl hl
    · rw [he] at hl
      simp only at hl
      rw [cacheLookup_cacheInsert] at hl
      by_cases hk : k = u
      · rw [if_pos hk] at hl
        injection hl with hl
        exact Or.inr hl.symm
      · rw [if_neg hk] at hl
        exact Or.inl hl
  | sweep =>
    simp only [applyDedupOp] at hl
    unfold DeduplicationHook.cleanExpiredCache at hl
    dsimp only at hl
    rw [cacheLookup_filter _ _ _ _ hwf] at hl
    exact Or.inl hl.1

/-- After a run of operations, a stored timestamp is either one that
was already stored at the start or the server time of one of the
operations. -/
theorem runDedupOps_lookup_cases (ops : List (DedupOp × Int)) :
    ∀ h : DeduplicationHook, CacheWf h.msgCache → ∀ k v',
      cacheLookup (runDedupOps h ops).msgCache k = some v' →
      cacheLookup h.msgCache k = some v' ∨ ∃ p ∈ ops, v' = p.2 := by
  induction ops with
  | nil => intro h _ k v' hl; exact Or.inl hl
  | cons op rest ih =>
    intro h hwf k v' hl
    have hstep : runDedupOps h (op :: rest) = runDedupOps (applyDedupOp h op.1 op.2) rest := rfl
    rw [hstep] at hl
    rcases ih _ (applyDedupOp_wf h op.1 op.2 hwf) k v' hl with hmid | ⟨p, hp, he⟩
    · rcases applyDedupOp_lookup_cases h op.1 op.2 k v' hwf hmid with hold | ht
      · exact Or.inl hold
      · exact Or.inr ⟨op, List.mem_cons_self op rest, ht⟩
    · exact Or.inr ⟨p, List.mem_cons_of_mem op hp, he⟩

/-- Membership from a successful lookup. -/
theorem cacheLookup_mem (c : List (String × Int)) (k : String) (v : Int)
    (hl : cacheLookup c k = some v) : (k, v) ∈ c := by
  induction c with
  | nil => exact absurd hl (by simp [cacheLookup])
  | cons p rest ih =>
    rw [cacheLookup_cons] at hl
    by_cases hp : p.1 = k
    · rw [if_pos hp] at hl
      injection hl with hl
      have hpe : p = (k, v) := by cases p; simp_all
      rw [← hpe]
      exact List.mem_cons_self p rest
    · rw [if_neg hp] at hl
      exact List.mem_cons_of_mem p (ih hl)

/-! ### Claims -/

/-- Claim C7: a publish whose topic differs from the configured target
topic is returned unmodified with no error, without consulting the
payload, and the hook state (in particular the whole cache mapping) is
unchanged. -/
theorem dedup_non_target_bypass (h : DeduplicationHook) (pk : DedupPacket) (now : Int)
    (htopic : pk.topicName ≠ h.targetTopic) :
    h.onPublish pk now = (pk, none, h) := by
  unfold DeduplicationHook.onPublish
  rw [if_pos htopic]

theorem dedup_non_target_bypass_witness :
    ("other/topic" : String) ≠ newDeduplicationHook.targetTopic ∧
    newDeduplicationHook.onPublish
        { topicName := "other/topic", payload := ParseResult.fail } 7 =
      ({ topicName := "other/topic", payload := ParseResult.fail }, none, newDeduplicationHook) :=
  ⟨by decide, dedup_non_target_bypass newDeduplicationHook _ 7 (by decide)⟩

/-- Claim C6: on the target topic, an unparseable payload, or one whose
origin-identifier field is absent or not a string, passes through
unmodified and unrejected and the hook state is unchanged (fail-open). -/
theorem dedup_fail_open (h : DeduplicationHook) (pk : DedupPacket) (now : Int)
    (htopic : pk.topicName = h.targetTopic)
    (hbad : pk.payload = ParseResult.fail ∨
      ∃ msgData, pk.payload = ParseResult.ok msgData ∧
        extractString msgData h.uuidField = none) :
    h.onPublish pk now = (pk, none, h) := by
  unfold DeduplicationHook.onPublish
  rw [if_neg (not_not_intro htopic)]
  rcases hbad with hfail | ⟨msgData, hok, hu⟩
  · rw [hfail]
  · rw [hok]
    dsimp only
    rw [hu]

theorem dedup_fail_open_witness :
    newDeduplicationHook.onPublish
        { topicName := "device/contact", payload := ParseResult.fail } 7 =
      ({ topicName := "device/contact", payload := ParseResult.fail }, none,
        newDeduplicationHook) ∧
    newDeduplicationHook.onPublish
        { topicName := "device/contact"
        , payload := ParseResult.ok [("other", JsonVal.num 3)] } 7 =
      ({ topicName := "device/contact"
       , payload := ParseResult.ok [("other", JsonVal.num 3)] }, none,
        newDeduplicationHook) :=
  ⟨dedup_fail_open newDeduplicationHook _ 7 rfl (Or.inl rfl),
   dedup_fail_open newDeduplicationHook _ 7 rfl (Or.inr ⟨_, rfl, by decide⟩)⟩

/-- Claim C2: on the target topic, with the origin identifier present
and a count field that extracts to exactly `0`, the event is passed
through unconditionally and the cache entry of that identifier is set
to the current server time, whatever the prior cache state. -/
theorem dedup_count_zero_reset (h : DeduplicationHook) (pk : DedupPacket) (now : Int)
    (msgData : List (String × JsonVal)) (uuid : String)
    (htopic : pk.topicName = h.targetTopic)
    (hpayload : pk.payload = ParseResult.ok msgData)
    (huuid : extractString msgData h.uuidField = some uuid)
    (hcount : extractInt msgData h.countField = some 0) :
    h.onPublish pk now =
      (pk, none, { h with msgCache := cacheInsert h.msgCache uuid now }) ∧
    cacheLookup (h.onPublish pk now).2.2.msgCache uuid = some now := by
  have hres : h.onPublish pk now =
      (pk, none, { h with msgCache := cacheInsert h.msgCache uuid now }) := by
    unfold DeduplicationHook.onPublish
    rw [if_neg (not_not_intro htopic), hpayload]
    dsimp only
    rw [huuid]
    dsimp only
    rw [if_pos hcount]
  refine ⟨hres, ?_⟩
  rw [hres]
  dsimp only
  rw [cacheLookup_cacheInsert, if_pos rfl]

theorem dedup_count_zero_reset_witness :
    extractInt [("uuid", JsonVal.str "u2"), ("count", JsonVal.num 0)] "count" = some 0 ∧
    cacheLookup
      (({ newDeduplicationHook with msgCache := [("u2", 9000)] }).onPublish
        { topicName := "device/contact"
        , payload := ParseResult.ok [("uuid", JsonVal.str "u2"), ("count", JsonVal.num 0)] }
        5).2.2.msgCache "u2" = some 5 :=
  ⟨by decide,
   (dedup_count_zero_reset { newDeduplicationHook with msgCache := [("u2", 9000)] } _ 5
      [("uuid", JsonVal.str "u2"), ("count", JsonVal.num 0)] "u2"
      rfl rfl (by decide) (by decide)).2⟩

/-- Claim C1: on the target topic with the origin identifier present, a
count that is absent or nonzero, and an existing cache entry `ts`, the
event is rejected as a duplicate with the state untouched when the
server-time gap lies in `[0, timeWindow]`, and otherwise accepted with
the stored timestamp overwritten by the current server time. -/
theorem dedup_window_classification (h : DeduplicationHook) (pk : DedupPacket) (now : Int)
    (msgData : List (String × JsonVal)) (uuid : String) (ts : Int)
    (htopic : pk.topicName = h.targetTopic)
    (hpayload : pk.payload = ParseResult.ok msgData)
    (huuid : extractString msgData h.uuidField = some uuid)
    (hcount : extractInt msgData h.countField ≠ some 0)
    (hts : cacheLookup h.msgCache uuid = some ts) :
    (0 ≤ now - ts ∧ now - ts ≤ h.timeWindow →
      h.onPublish pk now = (pk, some GoError.rejectPacket, h)) ∧
    (¬(0 ≤ now - ts ∧ now - ts ≤ h.timeWindow) →
      h.onPublish pk now =
        (pk, none, { h with msgCache := cacheInsert h.msgCache uuid now }) ∧
      cacheLookup (h.onPublish pk now).2.2.msgCache uuid = some now) := by
  have hred : h.onPublish pk now =
      if 0 ≤ now - ts ∧ now - ts ≤ h.timeWindow then
        (pk, some GoError.rejectPacket, h)
      else
        (pk, none, { h with msgCache := cacheInsert h.msgCache uuid now }) := by
    unfold DeduplicationHook.onPublish
    rw [if_neg (not_not_intro htopic), hpayload]
    dsimp only
    rw [huuid]
    dsimp only
    rw [if_neg hcount, hts]
  constructor
  · intro hc
    rw [hred, if_pos hc]
  · intro hc
    have hacc : h.onPublish pk now =
        (pk, none, { h with msgCache := cacheInsert h.msgCache uuid now }) := by
      rw [hred, if_neg hc]
    refine ⟨hacc, ?_⟩
    rw [hacc]
    dsimp only
    rw [cacheLookup_cacheInsert, if_pos rfl]

theorem dedup_window_classification_witness :
    (0 ≤ (110 : Int) - 100 ∧ (110 : Int) - 100 ≤ newDeduplicationHook.timeWindow) ∧
    ({ newDeduplicationHook with msgCache := [("u1", 100)] }).onPublish
        { topicName := "device/contact"
        , payload := ParseResult.ok [("uuid", JsonVal.str "u1"), ("count", JsonVal.num 3)] }
        110 =
      ({ topicName := "device/contact"
       , payload := ParseResult.ok [("uuid", JsonVal.str "u1"), ("count", JsonVal.num 3)] },
        some GoError.rejectPacket,
        { newDeduplicationHook with msgCache := [("u1", 100)] }) :=
  ⟨by decide,
   (dedup_window_classification { newDeduplicationHook with msgCache := [("u1", 100)] } _ 110
      [("uuid", JsonVal.str "u1"), ("count", JsonVal.num 3)] "u1" 100
      rfl rfl (by decide) (by decide) (by decide)).1 (by decide)⟩

/-- Claim C8: reconfiguration replaces the target topic, the uuid and
timestamp field names and the time window, and leaves the existing
cache mapping — and the count field name and cleanup interval, which
have no parameter — unchanged. -/
theorem setConfig_replaces_config_keeps_cache (h : DeduplicationHook)
    (topic uuidField timestampField : String) (timeWindow : Int) :
    (h.setConfig topic uuidField timestampField timeWindow).msgCache = h.msgCache ∧
    (h.setConfig topic uuidField timestampField timeWindow).targetTopic = topic ∧
    (h.setConfig topic uuidField timestampField timeWindow).uuidField = uuidField ∧
    (h.setConfig topic uuidField timestampField timeWindow).timestampField = timestampField ∧
    (h.setConfig topic uuidField timestampField timeWindow).timeWindow = timeWindow ∧
    (h.setConfig topic uuidField timestampField timeWindow).countField = h.countField ∧
    (h.setConfig topic uuidField timestampField timeWindow).cleanInterval = h.cleanInterval :=
  ⟨rfl, rfl, rfl, rfl, rfl, rfl, rfl⟩

/-- Claim C9: on connect the notifier hands the broker a publish to the
fixed connect topic carrying the client identifier and remote address,
and returns no error; on disconnect it publishes only the identifier to
the fixed disconnect topic; neither result depends on the outcome of
the fire-and-forget publish. -/
theorem connect_notifier_contract (h : ConnectHook) (cl : ConnClient)
    (o o1 o2 : Option GoError) (err : Option GoError) (expire : Bool) :
    h.onConnect cl o =
      ({ topic := h.connectTopic
       , payload := "\x7b\"uuid\":\"" ++ cl.id ++ "\",\"ip\":\"" ++ cl.remote ++ "\"\x7d"
       , retain := false
       , qos := 0 }, none) ∧
    h.onDisconnect cl err expire o =
      { topic := h.disConnectTopic
      , payload := "\x7b\"uuid\":\"" ++ cl.id ++ "\"\x7d"
      , retain := false
      , qos := 0 } ∧
    h.onConnect cl o1 = h.onConnect cl o2 ∧
    (∀ e1 x1 e2 x2, h.onDisconnect cl e1 x1 o1 = h.onDisconnect cl e2 x2 o2) :=
  ⟨rfl, rfl, rfl, fun _ _ _ _ => rfl⟩

/-- Claim C5: one sweep pass removes exactly the entries whose stored
timestamp is strictly older than `now - 3600` and leaves every other
entry (key and timestamp) in the mapping. -/
theorem sweep_removes_exactly_expired (h : DeduplicationHook) (now : Int)
    (hwf : CacheWf h.msgCache) (k : String) (v : Int) :
    cacheLookup (h.cleanExpiredCache now).msgCache k = some v ↔
      cacheLookup h.msgCache k = some v ∧ ¬ v < now - 3600 := by
  unfold DeduplicationHook.cleanExpiredCache
  dsimp only
  rw [cacheLookup_filter _ _ _ _ hwf]
  simp

theorem sweep_removes_exactly_expired_witness :
    CacheWf [("u3", 6000), ("u4", 9900)] ∧
    (cacheLookup
        (({ newDeduplicationHook with
            msgCache := [("u3", 6000), ("u4", 9900)] }).cleanExpiredCache 10000).msgCache
        "u3" = some 6000 ↔
      cacheLookup [("u3", 6000), ("u4", 9900)] "u3" = some 6000 ∧
        ¬ (6000 : Int) < 10000 - 3600) :=
  ⟨by decide,
   sweep_removes_exactly_expired
     { newDeduplicationHook with msgCache := [("u3", 6000), ("u4", 9900)] } 10000
     (by decide) "u3" 6000⟩

/-- Claim C10: a count field holding a JSON number is truncated toward
zero on extraction, so a fractional value strictly between 0 and 1
extracts to exactly 0 and triggers the client-restart reset path; a
count field holding a non-numeric value (a string) is treated as
absent by the extractor. -/
theorem count_truncation_toward_zero (h : DeduplicationHook) (pk : DedupPacket) (now : Int)
    (msgData : List (String × JsonVal)) (uuid : String) (q : Rat) (s : String)
    (htopic : pk.topicName = h.targetTopic)
    (hpayload : pk.payload = ParseResult.ok msgData)
    (huuid : extractString msgData h.uuidField = some uuid) :
    ((msgData.find? (fun p => p.1 = h.countField)).map Prod.snd = some (JsonVal.num q) →
      0 < q → q < 1 →
      extractInt msgData h.countField = some 0 ∧
      h.onPublish pk now =
        (pk, none, { h with msgCache := cacheInsert h.msgCache uuid now })) ∧
    ((msgData.find? (fun p => p.1 = h.countField)).map Prod.snd = some (JsonVal.str s) →
      extractInt msgData h.countField = none) := by
  constructor
  · intro hfind hq0 hq1
    have hzero : extractInt msgData h.countField = some 0 := by
      unfold extractInt
      rw [hfind]
      dsimp only
      have h1 : (0 : Int) ≤ q.num := le_of_lt (Rat.num_pos.mpr hq0)
      have h2 : q.num < (q.den : Int) := Rat.lt_one_iff_num_lt_denom.mp hq1
      have hz : f64ToInt64 q = 0 := Int.tdiv_eq_zero_of_lt h1 h2
      rw [hz]
    refine ⟨hzero, ?_⟩
    unfold DeduplicationHook.onPublish
    rw [if_neg (not_not_intro htopic), hpayload]
    dsimp only
    rw [huuid]
    dsimp only
    rw [if_pos hzero]
  · intro hfind
    unfold extractInt
    rw [hfind]

theorem count_truncation_toward_zero_witness :
    extractInt [("uuid", JsonVal.str "u5"), ("count", JsonVal.num (1 / 2))] "count" = some 0 ∧
    (({ newDeduplicationHook with msgCache := [("u5", 95)] }).onPublish
        { topicName := "device/contact"
        , payload := ParseResult.ok
            [("uuid", JsonVal.str "u5"), ("count", JsonVal.num (1 / 2))] } 100).2.1 = none ∧
    (({ newDeduplicationHook with msgCache := [("u5", 95)] }).onPublish
        { topicName := "device/contact"
        , payload := ParseResult.ok
            [("uuid", JsonVal.str "u5"), ("count", JsonVal.num (1 / 2))] } 100).2.2.msgCache =
      [("u5", 100)] ∧
    extractInt [("uuid", JsonVal.str "u5"), ("count", JsonVal.str "seven")] "count" = none := by
  have hmain := count_truncation_toward_zero
    { newDeduplicationHook with msgCache := [("u5", 95)] }
    { topicName := "device/contact"
    , payload := ParseResult.ok [("uuid", JsonVal.str "u5"), ("count", JsonVal.num (1 / 2))] }
    100 [("uuid", JsonVal.str "u5"), ("count", JsonVal.num (1 / 2))] "u5" (1 / 2) "seven"
    rfl rfl (by decide)
  have hstr := (count_truncation_toward_zero
    { newDeduplicationHook with msgCache := [("u5", 95)] }
    { topicName := "device/contact"
    , payload := ParseResult.ok [("uuid", JsonVal.str "u5"), ("count", JsonVal.str "seven")] }
    100 [("uuid", JsonVal.str "u5"), ("count", JsonVal.str "seven")] "u5" (1 / 2) "seven"
    rfl rfl (by decide)).2 rfl
  have hfrac := hmain.1 rfl (by norm_num) (by norm_num)
  refine ⟨hfrac.1, ?_, ?_, hstr⟩
  · rw [hfrac.2]
  · rw [hfrac.2]
    dsimp only
    decide

/-- Claim C3 fails on the code: when the server clock reads earlier
than the stored timestamp, the negative-delta accept path — not the
count-zero reset path — overwrites the entry with the smaller current
time.  Entry `("u1", 100)`, publish with `count = 1` at server time 50:
accepted (no error) and the stored timestamp regresses from 100 to 50. -/
theorem dedup_timestamp_regression_counterexample :
    extractInt [("uuid", JsonVal.str "u1"), ("count", JsonVal.num 1)] "count" = some 1 ∧
    (({ newDeduplicationHook with msgCache := [("u1", 100)] }).onPublish
        { topicName := "device/contact"
        , payload := ParseResult.ok [("uuid", JsonVal.str "u1"), ("count", JsonVal.num 1)] }
        50).2.1 = none ∧
    cacheLookup
      (({ newDeduplicationHook with msgCache := [("u1", 100)] }).onPublish
        { topicName := "device/contact"
        , payload := ParseResult.ok [("uuid", JsonVal.str "u1"), ("count", JsonVal.num 1)] }
        50).2.2.msgCache "u1" = some 50 ∧
    cacheLookup [("u1", 100)] "u1" = some 100 ∧
    (50 : Int) < 100 := by
  refine ⟨by decide, ?_, ?_, by decide, by decide⟩ <;> decide

/-- Claim C3 amended: provided no operation's server time is earlier
than a stored timestamp (the server clock never steps backward below
the cache contents), the stored timestamp of an origin identifier never
decreases across any sequence of dedup operations — on every path,
including the count-zero reset; without that clock assumption both the
reset path and the negative-delta accept path can regress it. -/
theorem dedup_timestamp_monotone_amended
    (h : DeduplicationHook) (ops : List (DedupOp × Int)) (k : String) (v v' : Int)
    (hwf : CacheWf h.msgCache)
    (hclock : ∀ p ∈ ops, ∀ k₀ v₀, cacheLookup h.msgCache k₀ = some v₀ → v₀ ≤ p.2)
    (hv : cacheLookup h.msgCache k = some v)
    (hv' : cacheLookup (runDedupOps h ops).msgCache k = some v') :
    v ≤ v' := by
  rcases runDedupOps_lookup_cases ops h hwf k v' hv' with h0 | ⟨p, hp, he⟩
  · rw [hv] at h0
    injection h0 with h0
    omega
  · subst he
    exact hclock p hp k v hv

theorem dedup_timestamp_monotone_amended_witness :
    CacheWf [("u1", 10)] ∧
    cacheLookup
      (runDedupOps { newDeduplicationHook with msgCache := [("u1", 10)] }
        [(DedupOp.publish
            { topicName := "device/contact"
            , payload := ParseResult.ok [("uuid", JsonVal.str "u1"), ("count", JsonVal.num 2)] },
          35),
         (DedupOp.sweep, 40)]).msgCache "u1" = some 35 ∧
    (10 : Int) ≤ 35 := by
  refine ⟨by decide, by decide, ?_⟩
  refine dedup_timestamp_monotone_amended
    { newDeduplicationHook with msgCache := [("u1", 10)] }
    [(DedupOp.publish
        { topicName := "device/contact"
        , payload := ParseResult.ok [("uuid", JsonVal.str "u1"), ("count", JsonVal.num 2)] },
      35),
     (DedupOp.sweep, 40)]
    "u1" 10 35 (by decide) ?_ (by decide) (by decide)
  intro p hp k₀ v₀ hl
  have hmem := cacheLookup_mem _ _ _ hl
  simp only [List.mem_singleton, Prod.mk.injEq] at hmem
  simp only [List.mem_cons, List.mem_singleton, List.not_mem_nil, or_false] at hp
  rcases hp with hp | hp <;> rw [hp] <;> omega

/-- Claim C4 fails on the code: embedding through `json.RawMessage`
re-validates the payload, so a payload that is not valid JSON (here the
bytes `hi`) makes `json.Marshal` fail on a configured topic — the hook
returns the packet unchanged together with the error instead of an
enriched payload. -/
theorem ip_injector_verbatim_counterexample :
    newIPInjectorHook.isTargetTopic "device/contact" = true ∧
    jsonCompact "hi" = none ∧
    newIPInjectorHook.onPublish { remote := "1.2.3.4" }
        { topicName := "device/contact", payload := "hi" } =
      ({ topicName := "device/contact", payload := "hi" }, some GoError.marshalError) := by
  refine ⟨by decide, by decide, by decide⟩

/-- Claim C4 amended: on a topic outside the enrichment set the output
equals the input byte-for-byte; on a configured topic, a payload that
is valid JSON is wrapped as
`\x7b"meta":\x7b"ip":<addr>\x7d,"data":<compacted payload>\x7d` — so
the bytes are embedded verbatim exactly when the payload is already in
compact form — while a payload that is not valid JSON aborts that
event's delivery with an error and leaves the payload unchanged. -/
theorem ip_injector_wrap_amended (h : IPInjectorHook) (cl : Client) (pk : InjPacket) :
    (h.isTargetTopic pk.topicName = false → h.onPublish cl pk = (pk, none)) ∧
    (h.isTargetTopic pk.topicName = true →
      (∀ c, jsonCompact pk.payload = some c →
        h.onPublish cl pk =
          ({ pk with payload := "\x7b\"meta\":\x7b\"ip\":" ++ goEncodeString cl.remote
              ++ "\x7d,\"data\":" ++ c ++ "\x7d" }, none)) ∧
      (jsonCompact pk.payload = none →
        h.onPublish cl pk = (pk, some GoError.marshalError))) := by
  refine ⟨?_, fun ht => ⟨?_, ?_⟩⟩
  · intro hf
    unfold IPInjectorHook.onPublish
    rw [hf]
    rfl
  · intro c hc
    unfold IPInjectorHook.onPublish
    rw [ht, if_neg (by decide)]
    unfold ipInjectorMarshal
    rw [hc]
  · intro hc
    unfold IPInjectorHook.onPublish
    rw [ht, if_neg (by decide)]
    unfold ipInjectorMarshal
    rw [hc]

theorem ip_injector_wrap_amended_witness :
    newIPInjectorHook.isTargetTopic "device/contact" = true ∧
    jsonCompact "\x7b\"a\":1\x7d" = some "\x7b\"a\":1\x7d" ∧
    newIPInjectorHook.onPublish { remote := "1.2.3.4" }
        { topicName := "device/contact", payload := "\x7b\"a\":1\x7d" } =
      ({ topicName := "device/contact"
       , payload := "\x7b\"meta\":\x7b\"ip\":" ++ goEncodeString "1.2.3.4"
           ++ "\x7d,\"data\":" ++ "\x7b\"a\":1\x7d" ++ "\x7d" }, none) :=
  ⟨by decide, by decide,
   ((ip_injector_wrap_amended newIPInjectorHook { remote := "1.2.3.4" }
      { topicName := "device/contact", payload := "\x7b\"a\":1\x7d" }).2
      (by decide)).1 "\x7b\"a\":1\x7d" (by decide)⟩
